import Mathlib

/-!
Shallow embedding of `pydune/math.py` (the single source module of the
Cgadal/pydune repository restricted to this verification).

The binning / averaging functions (`make_angular_PDF`, `make_angular_average`)
only use field arithmetic and order comparisons, so they are embedded over `ℚ`
with 1-D arrays as `List ℚ` (the `axis` argument specialised to the 1-D case).
The trigonometric functions are embedded over `ℝ`, with `np.arctan2 y x`
modelled as `Complex.arg ⟨x, y⟩` (both have range `(-π, π]`, agree on all
quadrant boundaries, and send the origin to `0`).

Histogram semantics (numpy / xhistogram): with edges `e₀ ≤ … ≤ eₙ`, sample `x`
falls in bin `i` iff `eᵢ ≤ x < eᵢ₊₁`, except the last bin which also includes
its right edge.  `density=1` normalises the weighted histogram `h` as
`h / widths / h.sum` (numpy's density normalisation).
-/

namespace PyDune

/-! ### Rational part: histogram, PDF, binned average -/

/-- Membership of sample `x` in bin `i` of `edges` (half-open bins, last bin
closed on the right), following numpy histogram semantics. -/
def inBin (edges : List ℚ) (i : Nat) (x : ℚ) : Bool :=
  if i + 2 = edges.length then
    decide (edges.getD i 0 ≤ x) && decide (x ≤ edges.getD (i + 1) 0)
  else
    decide (edges.getD i 0 ≤ x) && decide (x < edges.getD (i + 1) 0)

/-- Sum of the weights of the samples falling in bin `i`. -/
def binWeight (edges angles weight : List ℚ) (i : Nat) : ℚ :=
  (((List.zip angles weight).filter (fun p => inBin edges i p.1)).map Prod.snd).sum

/-- Number of samples falling in bin `i`. -/
def binCount (edges angles : List ℚ) (i : Nat) : Nat :=
  (angles.filter (fun a => inBin edges i a)).length

/-- Embeds `histogram(angles, bins=edges, weights=weight)` (1-D). -/
def weightedHist (edges angles weight : List ℚ) : List ℚ :=
  (List.range (edges.length - 1)).map (binWeight edges angles weight)

/-- Embeds `histogram(angles, bins=edges)` (1-D), counts cast to the value field. -/
def countHist (edges angles : List ℚ) : List ℚ :=
  (List.range (edges.length - 1)).map (fun i => (binCount edges angles i : ℚ))

/-- Embeds `np.diff(edges)`: the widths of the bins. -/
def binWidths (edges : List ℚ) : List ℚ :=
  (List.range (edges.length - 1)).map (fun i => edges.getD (i + 1) 0 - edges.getD i 0)

/-- The default `bin_edges = np.linspace(0, 360, 361)`. -/
def defaultBinEdges : List ℚ :=
  (List.range 361).map (fun i : Nat => (i : ℚ))

/-- Embeds `bin_edges[1:] - (bin_edges[1] - bin_edges[0])/2`, the bin-centers
line of `make_angular_PDF`. -/
def binCentersPDF (edges : List ℚ) : List ℚ :=
  (edges.drop 1).map (fun e => e - (edges.getD 1 0 - edges.getD 0 0) / 2)

/-- Embeds `np.mean(l)` for a 1-D list. -/
def listMean (l : List ℚ) : ℚ :=
  l.sum / (l.length : ℚ)

/-- Embeds `np.array([np.mean(bin_edges[i:i+2]) for i in range(bin_edges.size - 1)])`,
the bin-centers line of `make_angular_average`. -/
def binCentersAvg (edges : List ℚ) : List ℚ :=
  (List.range (edges.length - 1)).map (fun i => listMean ((edges.drop i).take 2))

/-- Embeds `make_angular_PDF` (1-D): density-normalised weighted histogram, and the
bin centers computed from the spacing of the FIRST two edges. -/
def make_angular_PDF (angles weight : List ℚ) (bin_edges : List ℚ := defaultBinEdges) :
    List ℚ × List ℚ :=
  let hist := weightedHist bin_edges angles weight
  let dens := List.zipWith (fun hv w => hv / w / hist.sum) hist (binWidths bin_edges)
  (dens, binCentersPDF bin_edges)

/-- Embeds `arr[mask == 0] = 1` specialised to the masked assignments of
`make_angular_average`: replace `h[i]` by `1` wherever `c[i] = 0`. -/
def maskOnes (h c : List ℚ) : List ℚ :=
  List.zipWith (fun hv cv => if cv = 0 then 1 else hv) h c

/-- Embeds `make_angular_average` (1-D): weighted histogram over counts, with empty
bins forced to `1/1`, and per-bin midpoint centers. -/
def make_angular_average (angles weight : List ℚ) (bin_edges : List ℚ := defaultBinEdges) :
    List ℚ × List ℚ :=
  let hist := weightedHist bin_edges angles weight
  let counts := countHist bin_edges angles
  let bin_centers := binCentersAvg bin_edges
  let hist2 := maskOnes hist counts
  let counts2 := maskOnes counts counts
  (List.zipWith (fun a b => a / b) hist2 counts2, bin_centers)

/-! ### Helper lemmas on range-maps -/

theorem getD_map_range {α : Type} [Inhabited α] (n i : Nat) (f : Nat → α) (d : α)
    (h : i < n) : (((List.range n).map f).getD i d) = f i := by
  rw [List.getD_eq_getElem _ _ (by simpa using h)]
  simp [h]

theorem zipWith_map_same {α β γ δ : Type} (f : α → β → γ) (g : δ → α) (g' : δ → β)
    (l : List δ) :
    List.zipWith f (l.map g) (l.map g') = l.map (fun x => f (g x) (g' x)) := by
  induction l with
  | nil => simp
  | cons a t ih => simp [ih]

theorem make_angular_average_fst_eq (angles weight edges : List ℚ) :
    (make_angular_average angles weight edges).1 =
      (List.range (edges.length - 1)).map (fun j =>
        (if (binCount edges angles j : ℚ) = 0 then 1
          else binWeight edges angles weight j) /
        (if (binCount edges angles j : ℚ) = 0 then 1
          else (binCount edges angles j : ℚ))) := by
  unfold make_angular_average maskOnes weightedHist countHist
  simp only [zipWith_map_same]

theorem take_two_drop (edges : List ℚ) (j : Nat) (h : j + 1 < edges.length) :
    (edges.drop j).take 2 = [edges.getD j 0, edges.getD (j + 1) 0] := by
  have h1 : j < edges.length := by omega
  rw [List.getD_eq_getElem _ _ h1, List.getD_eq_getElem _ _ h]
  rw [List.drop_eq_getElem_cons h1, List.drop_eq_getElem_cons h]
  rfl

/-- C1 (counterexample): on the non-uniform edges `[0, 1, 3]`, the bin center
at index 1 returned by `make_angular_PDF` is `5/2 = 3 - (1-0)/2`, not
`bin_edges[i+1] - w/2` with `w = bin_edges[-1] - bin_edges[-2] = 2`. -/
theorem make_angular_PDF_centers_lastTwo_cex :
    ¬ ((make_angular_PDF [] [] [0, 1, 3]).2.getD 1 0 =
        ([0, 1, 3] : List ℚ).getD 2 0 -
          (([0, 1, 3] : List ℚ).getD 2 0 - ([0, 1, 3] : List ℚ).getD 1 0) / 2) := by
  norm_num [make_angular_PDF, binCentersPDF]

/-- C1 (amended): for every `bin_edges` and every index `i` with
`i + 1 < bin_edges.length`, the bin centers returned by `make_angular_PDF`
satisfy `bin_centers[i] = bin_edges[i+1] - w/2` where `w` is the spacing of
the FIRST two edges, `bin_edges[1] - bin_edges[0]`; in particular, for
non-uniform `bin_edges` the centers are still offset by half of that single
globally-applied width. -/
theorem make_angular_PDF_centers (angles weight edges : List ℚ) (i : Nat)
    (h : i + 1 < edges.length) :
    (make_angular_PDF angles weight edges).2.getD i 0 =
      edges.getD (i + 1) 0 - (edges.getD 1 0 - edges.getD 0 0) / 2 := by
  have hm : i < ((edges.drop 1).map
      (fun e => e - (edges.getD 1 0 - edges.getD 0 0) / 2)).length := by
    simp; omega
  show (binCentersPDF edges).getD i 0 = _
  unfold binCentersPDF
  rw [List.getD_eq_getElem _ _ hm]
  simp only [List.getElem_map, List.getElem_drop, Nat.add_comm 1 i]
  rw [List.getD_eq_getElem _ _ h]

/-- C1 witness: the amended center formula instantiated on `[0, 1, 3]`
at index 0. -/
theorem make_angular_PDF_centers_witness :
    (0 : Nat) + 1 < ([0, 1, 3] : List ℚ).length ∧
    (make_angular_PDF [] [] [0, 1, 3]).2.getD 0 0 =
      ([0, 1, 3] : List ℚ).getD 1 0 -
        (([0, 1, 3] : List ℚ).getD 1 0 - ([0, 1, 3] : List ℚ).getD 0 0) / 2 :=
  ⟨by decide, make_angular_PDF_centers [] [] [0, 1, 3] 0 (by decide)⟩

/-- C2: every bin of `make_angular_average` whose sample count is zero is
assigned the value exactly 1 in the returned average array, regardless of the
weights elsewhere: both numerator and denominator are forced to 1 before the
division. -/
theorem make_angular_average_empty_bin (angles weight edges : List ℚ) (i : Nat)
    (hi : i < edges.length - 1) (hc : binCount edges angles i = 0) :
    ((make_angular_average angles weight edges).1).getD i 0 = 1 := by
  rw [make_angular_average_fst_eq, getD_map_range _ _ _ _ hi]
  simp [hc]

/-- C2 witness: with a single sample at `1/2` and edges `[0, 1, 2]`, bin 1 is
empty and the returned average there is 1 even though the weight is 7. -/
theorem make_angular_average_empty_bin_witness :
    1 < ([0, 1, 2] : List ℚ).length - 1 ∧
    binCount [0, 1, 2] [1/2] 1 = 0 ∧
    ((make_angular_average [1/2] [7] [0, 1, 2]).1).getD 1 0 = 1 :=
  ⟨by decide, by norm_num [binCount, inBin, List.filter],
    make_angular_average_empty_bin [1/2] [7] [0, 1, 2] 1 (by decide)
      (by norm_num [binCount, inBin, List.filter])⟩

/-- C6: every nonempty bin of `make_angular_average` gets the weighted sum of
`weight` in that bin divided by the count of samples in that bin (a per-bin
arithmetic mean of `weight`), and every bin center is the per-bin midpoint
`(bin_edges[j] + bin_edges[j+1]) / 2`. -/
theorem make_angular_average_mean (angles weight edges : List ℚ) (i : Nat)
    (hi : i < edges.length - 1) (hc : binCount edges angles i ≠ 0) :
    ((make_angular_average angles weight edges).1).getD i 0 =
      binWeight edges angles weight i / (binCount edges angles i : ℚ) ∧
    ∀ j, j < edges.length - 1 →
      ((make_angular_average angles weight edges).2).getD j 0 =
        (edges.getD j 0 + edges.getD (j + 1) 0) / 2 := by
  constructor
  · rw [make_angular_average_fst_eq, getD_map_range _ _ _ _ hi]
    have : ((binCount edges angles i : ℚ)) ≠ 0 := by
      exact_mod_cast hc
    simp [this]
  · intro j hj
    show (binCentersAvg edges).getD j 0 = _
    unfold binCentersAvg
    rw [getD_map_range _ _ _ _ hj, take_two_drop edges j (by omega)]
    show listMean _ = _
    simp [listMean]

/-- C6 witness: two samples in bin 0 of edges `[0, 1, 2]` with weights 3 and 5
average to 4, and the bin centers are `[1/2, 3/2]`. -/
theorem make_angular_average_mean_witness :
    0 < ([0, 1, 2] : List ℚ).length - 1 ∧
    binCount [0, 1, 2] [1/4, 1/2] 0 ≠ 0 ∧
    (((make_angular_average [1/4, 1/2] [3, 5] [0, 1, 2]).1).getD 0 0 =
      binWeight [0, 1, 2] [1/4, 1/2] [3, 5] 0 / (binCount [0, 1, 2] [1/4, 1/2] 0 : ℚ) ∧
    ∀ j, j < ([0, 1, 2] : List ℚ).length - 1 →
      ((make_angular_average [1/4, 1/2] [3, 5] [0, 1, 2]).2).getD j 0 =
        (([0, 1, 2] : List ℚ).getD j 0 + ([0, 1, 2] : List ℚ).getD (j + 1) 0) / 2) :=
  ⟨by decide, by norm_num [binCount, inBin, List.filter],
    make_angular_average_mean [1/4, 1/2] [3, 5] [0, 1, 2] 0 (by decide)
      (by norm_num [binCount, inBin, List.filter])⟩

theorem make_angular_PDF_fst_eq (angles weight edges : List ℚ) :
    (make_angular_PDF angles weight edges).1 =
      (List.range (edges.length - 1)).map (fun i =>
        binWeight edges angles weight i /
          (edges.getD (i + 1) 0 - edges.getD i 0) /
          (weightedHist edges angles weight).sum) := by
  unfold make_angular_PDF weightedHist binWidths
  simp only [zipWith_map_same]

/-- C5 (counterexample): for `angles = [400]`, `weight = [1]` and the default
edges, the total weight `1` is nonzero, yet the sample falls in no bin, the
in-range weighted sum is `0`, and the densities sum to `0`, not `1`: the
claim's hypothesis "nonzero total weight" is not enough. -/
theorem make_angular_PDF_integral_cex :
    ([1] : List ℚ).sum ≠ 0 ∧
    (List.zipWith (fun d w => d * w) (make_angular_PDF [400] [1] defaultBinEdges).1
        (binWidths defaultBinEdges)).sum ≠ 1 := by
  have hlen : defaultBinEdges.length = 361 := by
    unfold defaultBinEdges
    rw [List.length_map, List.length_range]
  have hv : ∀ k, defaultBinEdges.getD k 0 ≤ 360 := by
    intro k
    by_cases hk : k < 361
    · have : defaultBinEdges.getD k 0 = (k : ℚ) := by
        unfold defaultBinEdges
        rw [getD_map_range _ _ _ _ hk]
      rw [this]
      exact_mod_cast Nat.le_of_lt_succ hk
    · rw [List.getD_eq_getElem?_getD, List.getElem?_eq_none (by rw [hlen]; omega)]
      norm_num
  have hnb : ∀ i, inBin defaultBinEdges i (400 : ℚ) = false := by
    intro i
    have h2 : ¬ ((400 : ℚ) ≤ defaultBinEdges.getD (i + 1) 0) := by
      have := hv (i + 1); intro hcon; linarith
    have h3 : ¬ ((400 : ℚ) < defaultBinEdges.getD (i + 1) 0) := by
      have := hv (i + 1); intro hcon; linarith
    unfold inBin
    split
    · rw [decide_eq_false h2, Bool.and_false]
    · rw [decide_eq_false h3, Bool.and_false]
  have hH : ∀ i, binWeight defaultBinEdges [400] [1] i = 0 := by
    intro i
    unfold binWeight
    simp [List.zip, List.zipWith, List.filter, hnb]
  refine ⟨by norm_num, ?_⟩
  rw [make_angular_PDF_fst_eq]
  unfold binWidths
  simp only [zipWith_map_same]
  rw [List.sum_eq_zero]
  · norm_num
  · intro x hx
    rcases List.mem_map.mp hx with ⟨i, _, hxi⟩
    rw [hH i] at hxi
    simp at hxi
    exact hxi.symm

/-- C5 (amended): for every input whose IN-RANGE weighted total (the sum of
the weighted histogram) is nonzero and whose bins all have nonzero width,
the densities returned by `make_angular_PDF` integrate to 1 over the bin
range: the sum over bins of density times bin width equals 1 (with the
default 361 evenly spaced edges spanning [0, 360], this is the sum of the 360
one-degree-bin densities).  The original claim's hypothesis "nonzero total
weight" is weakened to nonzero in-range weighted total, as samples outside
the bin range contribute to the former but not to the histogram. -/
theorem make_angular_PDF_integral (angles weight edges : List ℚ)
    (hw : ∀ i, i < edges.length - 1 → edges.getD (i + 1) 0 - edges.getD i 0 ≠ 0)
    (hT : (weightedHist edges angles weight).sum ≠ 0) :
    (List.zipWith (fun d w => d * w) (make_angular_PDF angles weight edges).1
        (binWidths edges)).sum = 1 := by
  rw [make_angular_PDF_fst_eq]
  unfold binWidths
  simp only [zipWith_map_same]
  have hfun : ∀ i ∈ List.range (edges.length - 1),
      binWeight edges angles weight i / (edges.getD (i + 1) 0 - edges.getD i 0) /
          (weightedHist edges angles weight).sum * (edges.getD (i + 1) 0 - edges.getD i 0) =
        binWeight edges angles weight i * ((weightedHist edges angles weight).sum)⁻¹ := by
    intro i hi
    have hWi := hw i (List.mem_range.mp hi)
    have hflip : (edges.getD (i + 1) 0 - edges.getD i 0) *
        (edges.getD (i + 1) 0 - edges.getD i 0)⁻¹ = 1 := mul_inv_cancel₀ hWi
    calc binWeight edges angles weight i / (edges.getD (i + 1) 0 - edges.getD i 0) /
          (weightedHist edges angles weight).sum * (edges.getD (i + 1) 0 - edges.getD i 0)
        = binWeight edges angles weight i * ((weightedHist edges angles weight).sum)⁻¹ *
          ((edges.getD (i + 1) 0 - edges.getD i 0) *
            (edges.getD (i + 1) 0 - edges.getD i 0)⁻¹) := by
          rw [div_eq_mul_inv, div_eq_mul_inv]; ring
      _ = binWeight edges angles weight i * ((weightedHist edges angles weight).sum)⁻¹ := by
          rw [hflip, mul_one]
  rw [List.map_congr_left hfun, List.sum_map_mul_right]
  have hsum : ((List.range (edges.length - 1)).map
      (fun i => binWeight edges angles weight i)).sum =
      (weightedHist edges angles weight).sum := rfl
  rw [hsum, mul_inv_cancel₀ hT]

/-- C5 witness: one sample at `1/2` with weight `1` in edges `[0, 1, 2]`:
the in-range total is 1, both bins have width 1, and the densities sum to 1. -/
theorem make_angular_PDF_integral_witness :
    (∀ i, i < ([0, 1, 2] : List ℚ).length - 1 →
      ([0, 1, 2] : List ℚ).getD (i + 1) 0 - ([0, 1, 2] : List ℚ).getD i 0 ≠ 0) ∧
    (weightedHist [0, 1, 2] [1/2] [1]).sum ≠ 0 ∧
    (List.zipWith (fun d w => d * w) (make_angular_PDF [1/2] [1] [0, 1, 2]).1
        (binWidths [0, 1, 2])).sum = 1 :=
  ⟨by intro i hi; simp at hi; interval_cases i <;> norm_num,
    by norm_num [weightedHist, binWeight, inBin, List.range_succ, List.zip,
      List.zipWith, List.filter],
    make_angular_PDF_integral [1/2] [1] [0, 1, 2]
      (by intro i hi; simp at hi; interval_cases i <;> norm_num)
      (by norm_num [weightedHist, binWeight, inBin, List.range_succ, List.zip,
        List.zipWith, List.filter])⟩

/-! ### Real part: degree trigonometry, polar conversion, vector average -/

noncomputable section

/-- Embeds `np.radians(x) = x * π/180`. -/
def radians (x : ℝ) : ℝ := x * (Real.pi / 180)

/-- Embeds `np.degrees(x) = x * 180/π`. -/
def degrees (x : ℝ) : ℝ := x * (180 / Real.pi)

/-- Embeds `tand(x) = np.tan(np.radians(x))`. -/
def tand (x : ℝ) : ℝ := Real.tan (radians x)

/-- Embeds `sind(x) = np.sin(np.radians(x))`. -/
def sind (x : ℝ) : ℝ := Real.sin (radians x)

/-- Embeds `cosd(x) = np.cos(np.radians(x))`. -/
def cosd (x : ℝ) : ℝ := Real.cos (radians x)

/-- Embeds `np.arctan2(x1, x2)`: the argument of the complex number `x2 + x1*i`,
in `(-π, π]`. -/
def arctan2 (x1 x2 : ℝ) : ℝ := Complex.arg ⟨x2, x1⟩

/-- Embeds `arctan2d(x1, x2) = np.degrees(np.arctan2(x1, x2))`. -/
def arctan2d (x1 x2 : ℝ) : ℝ := degrees (arctan2 x1 x2)

/-- Python / numpy `a % b` on reals (floored modulo): `a - b*⌊a/b⌋`. -/
def rmod (a b : ℝ) : ℝ := a - b * ⌊a / b⌋

/-- Embeds `cartesian_to_polar(x, y) = (sqrt(x²+y²), arctan2d(y, x) % 360)`. -/
def cartesian_to_polar (x y : ℝ) : ℝ × ℝ :=
  (Real.sqrt (x ^ 2 + y ^ 2), rmod (arctan2d y x) 360)

/-- One elementwise term `norm * exp(1j * radians(angle))` of `vector_average`;
a missing value (`none`, modelling NaN) in either factor gives a missing term. -/
def cexpTerm (a n : Option ℝ) : Option ℂ :=
  match a, n with
  | some av, some nv => some ((nv : ℂ) * Complex.exp (Complex.I * ((radians av : ℝ) : ℂ)))
  | _, _ => none

/-- Embeds `np.nanmean` on a 1-D complex array: the arithmetic mean of the
non-missing entries. -/
def nanmean (l : List (Option ℂ)) : ℂ :=
  (l.filterMap id).sum / ((l.filterMap id).length : ℂ)

/-- Embeds `vector_average(angles, norm)` (1-D, `axis=-1`): NaN-skipping mean of
`norm * exp(1j*radians(angles))`, decomposed into `(degrees(angle), norm)`. -/
def vector_average (angles norm : List (Option ℝ)) : ℝ × ℝ :=
  let avg := nanmean (List.zipWith cexpTerm angles norm)
  (degrees avg.arg, Complex.abs avg)

theorem degrees_arg_mem (z : ℂ) :
    -180 ≤ degrees (Complex.arg z) ∧ degrees (Complex.arg z) ≤ 180 := by
  have hpi := Real.pi_pos
  have h1 : Complex.arg z ≤ Real.pi := Complex.arg_le_pi z
  have h2 : -Real.pi < Complex.arg z := Complex.neg_pi_lt_arg z
  have hc : (0 : ℝ) < 180 / Real.pi := by positivity
  constructor
  · have : -Real.pi * (180 / Real.pi) ≤ Complex.arg z * (180 / Real.pi) :=
      mul_le_mul_of_nonneg_right h2.le hc.le
    have he : -Real.pi * (180 / Real.pi) = -180 := by
      field_simp
      ring
    unfold degrees
    linarith [he ▸ this]
  · have : Complex.arg z * (180 / Real.pi) ≤ Real.pi * (180 / Real.pi) :=
      mul_le_mul_of_nonneg_right h1 hc.le
    have he : Real.pi * (180 / Real.pi) = 180 := by
      field_simp
    unfold degrees
    linarith [he ▸ this]

theorem rmod_360_bounds (a : ℝ) : 0 ≤ rmod a 360 ∧ rmod a 360 < 360 := by
  unfold rmod
  have h1 : ((⌊a / 360⌋ : ℤ) : ℝ) ≤ a / 360 := Int.floor_le _
  have h2 : a / 360 < (⌊a / 360⌋ : ℤ) + 1 := Int.lt_floor_add_one _
  have e : a / 360 * 360 = a := div_mul_cancel₀ a (by norm_num)
  constructor
  · nlinarith
  · nlinarith

/-- C7: the function `arctan2d` is the quadrant-aware two-argument arctangent converted
to degrees, its output lies in `[-180, 180]`, and at the quadrant boundaries
`arctan2d 0 (-1) = 180` and `arctan2d 0 1 = 0` exactly. -/
theorem arctan2d_correct :
    (∀ x1 x2 : ℝ, arctan2d x1 x2 = degrees (Complex.arg ⟨x2, x1⟩) ∧
      -180 ≤ arctan2d x1 x2 ∧ arctan2d x1 x2 ≤ 180) ∧
    arctan2d 0 (-1) = 180 ∧ arctan2d 0 1 = 0 := by
  refine ⟨fun x1 x2 => ⟨rfl, degrees_arg_mem _⟩, ?_, ?_⟩
  · have hm : (⟨-1, 0⟩ : ℂ) = -1 := by
      simp [Complex.ext_iff]
    unfold arctan2d arctan2 degrees
    rw [hm, Complex.arg_neg_one]
    field_simp
  · have hm : (⟨1, 0⟩ : ℂ) = 1 := by
      simp [Complex.ext_iff]
    unfold arctan2d arctan2 degrees
    rw [hm, Complex.arg_one, zero_mul]

/-- C4: `cartesian_to_polar(x, y)` returns `r = sqrt(x²+y²)` and
`theta = arctan2d(y, x) mod 360`, with `theta` in the half-open range
`[0, 360)`: 360 itself is never returned. -/
theorem cartesian_to_polar_correct (x y : ℝ) :
    cartesian_to_polar x y = (Real.sqrt (x ^ 2 + y ^ 2), rmod (arctan2d y x) 360) ∧
    0 ≤ (cartesian_to_polar x y).2 ∧ (cartesian_to_polar x y).2 < 360 :=
  ⟨rfl, rmod_360_bounds _⟩

/-- C10: at the origin (excluded by the round-trip property),
`cartesian_to_polar 0 0 = (0, 0)`: the two-argument arctangent of `(0, 0)`
is 0, so no NaN and no error. -/
theorem cartesian_to_polar_origin : cartesian_to_polar 0 0 = (0, 0) := by
  have h0 : (⟨0, 0⟩ : ℂ) = 0 := by
    simp [Complex.ext_iff]
  unfold cartesian_to_polar arctan2d arctan2 degrees rmod
  rw [h0, Complex.arg_zero]
  norm_num

theorem radians_degrees (a : ℝ) : radians (degrees a) = a := by
  unfold radians degrees
  have hpi := Real.pi_ne_zero
  field_simp

theorem cosd_rmod_360 (d : ℝ) : cosd (rmod d 360) = Real.cos (radians d) := by
  unfold cosd rmod radians
  have e : (d - 360 * (⌊d / 360⌋ : ℤ)) * (Real.pi / 180) =
      d * (Real.pi / 180) + ((-⌊d / 360⌋ : ℤ) : ℝ) * (2 * Real.pi) := by
    push_cast
    ring
  rw [e, Real.cos_add_int_mul_two_pi]

theorem sind_rmod_360 (d : ℝ) : sind (rmod d 360) = Real.sin (radians d) := by
  unfold sind rmod radians
  have e : (d - 360 * (⌊d / 360⌋ : ℤ)) * (Real.pi / 180) =
      d * (Real.pi / 180) + ((-⌊d / 360⌋ : ℤ) : ℝ) * (2 * Real.pi) := by
    push_cast
    ring
  rw [e, Real.sin_add_int_mul_two_pi]

/-- C8: the function `cartesian_to_polar` round-trips with the degree trig functions: for
`(x, y)` not both zero, `(r, theta) = cartesian_to_polar(x, y)` satisfies
`r * cosd(theta) = x` and `r * sind(theta) = y` (exactly, over ℝ). -/
theorem cartesian_to_polar_roundtrip (x y : ℝ) (h : ¬(x = 0 ∧ y = 0)) :
    (cartesian_to_polar x y).1 * cosd (cartesian_to_polar x y).2 = x ∧
    (cartesian_to_polar x y).1 * sind (cartesian_to_polar x y).2 = y := by
  have hz : (⟨x, y⟩ : ℂ) ≠ 0 := by
    intro h0
    apply h
    simpa [Complex.ext_iff] using h0
  have habsne : Complex.abs ⟨x, y⟩ ≠ 0 := Complex.abs.ne_zero hz
  have hr : (cartesian_to_polar x y).1 = Complex.abs ⟨x, y⟩ := by
    show Real.sqrt (x ^ 2 + y ^ 2) = _
    rw [Complex.abs_apply, Complex.normSq_mk]
    ring_nf
  have hth : (cartesian_to_polar x y).2 = rmod (degrees (Complex.arg ⟨x, y⟩)) 360 := rfl
  constructor
  · rw [hr, hth, cosd_rmod_360, radians_degrees, Complex.cos_arg hz]
    show Complex.abs ⟨x, y⟩ * ((⟨x, y⟩ : ℂ).re / Complex.abs ⟨x, y⟩) = x
    rw [mul_comm, div_mul_cancel₀ _ habsne]
  · rw [hr, hth, sind_rmod_360, radians_degrees, Complex.sin_arg]
    show Complex.abs ⟨x, y⟩ * ((⟨x, y⟩ : ℂ).im / Complex.abs ⟨x, y⟩) = y
    rw [mul_comm, div_mul_cancel₀ _ habsne]

/-- C8 witness: the round-trip at `(x, y) = (3, -4)`:
`r * cosd theta = 3` and `r * sind theta = -4`. -/
theorem cartesian_to_polar_roundtrip_witness :
    ¬((3 : ℝ) = 0 ∧ (-4 : ℝ) = 0) ∧
    ((cartesian_to_polar 3 (-4)).1 * cosd (cartesian_to_polar 3 (-4)).2 = 3 ∧
      (cartesian_to_polar 3 (-4)).1 * sind (cartesian_to_polar 3 (-4)).2 = -4) :=
  ⟨fun hc => by norm_num at hc,
    cartesian_to_polar_roundtrip 3 (-4) (fun hc => by norm_num at hc)⟩

/-- C3: the function `vector_average` is the decomposition of the NaN-skipping arithmetic
mean of `norm * exp(i*radians(angles))` into (argument in degrees, magnitude),
with the returned angle in `[-180, 180]`; consequently
`vector_average [359, 1] [1, 1]` yields the angle exactly 0 (not 180) and the
magnitude `cos(1°)`. -/
theorem vector_average_correct :
    (∀ angles norm : List (Option ℝ),
      vector_average angles norm =
        (degrees (Complex.arg (nanmean (List.zipWith cexpTerm angles norm))),
          Complex.abs (nanmean (List.zipWith cexpTerm angles norm))) ∧
      -180 ≤ (vector_average angles norm).1 ∧ (vector_average angles norm).1 ≤ 180) ∧
    vector_average [some 359, some 1] [some 1, some 1] = (0, Real.cos (radians 1)) := by
  have hpi := Real.pi_pos
  refine ⟨fun angles norm => ⟨rfl, degrees_arg_mem _⟩, ?_⟩
  have hrad1 : radians 1 = Real.pi / 180 := by
    unfold radians
    rw [one_mul]
  have hcosnn : 0 ≤ Real.cos (Real.pi / 180) := by
    apply Real.cos_nonneg_of_mem_Icc
    constructor
    · linarith
    · linarith
  have h359 : Complex.I * ((radians 359 : ℝ) : ℂ) =
      -(((Real.pi / 180 : ℝ) : ℂ)) * Complex.I + 2 * (Real.pi : ℂ) * Complex.I := by
    unfold radians
    push_cast
    ring
  have h1c : Complex.I * ((radians 1 : ℝ) : ℂ) = ((Real.pi / 180 : ℝ) : ℂ) * Complex.I := by
    rw [hrad1]
    ring
  have hmean : nanmean (List.zipWith cexpTerm
      [some (359 : ℝ), some 1] [some (1 : ℝ), some 1]) =
      ((Real.cos (Real.pi / 180) : ℝ) : ℂ) := by
    show (((1 : ℂ) * Complex.exp (Complex.I * ((radians 359 : ℝ) : ℂ)) +
        ((1 : ℂ) * Complex.exp (Complex.I * ((radians 1 : ℝ) : ℂ)) + 0)) /
          ((2 : Nat) : ℂ)) = _
    rw [one_mul, one_mul, add_zero, h359, h1c, Complex.exp_add,
      Complex.exp_two_pi_mul_I, mul_one]
    rw [add_comm, ← Complex.two_cos, Complex.ofReal_cos]
    push_cast
    ring
  show (degrees (Complex.arg (nanmean _)), Complex.abs (nanmean _)) = _
  rw [hmean, Complex.arg_ofReal_of_nonneg hcosnn, Complex.abs_ofReal,
    abs_of_nonneg hcosnn, hrad1]
  unfold degrees
  rw [zero_mul]

end

/-! ### Store model for the in-place assignments of `make_angular_average`

Numpy arrays are heap objects; `hist[counts == 0] = 1` and
`counts[counts == 0] = 1` mutate them in place.  To state the frame property
(the inputs — `angles`, `weight`, `bin_edges`, the shared default edges
included — are unchanged), arrays live in a `Store` indexed by allocation
order; `histogram` allocates fresh arrays, and the two masked assignments
write only to those fresh indices. -/

structure Store where
  arrays : List (List ℚ)

def Store.readArr (s : Store) (i : Nat) : List ℚ := s.arrays.getD i []

def Store.alloc (s : Store) (v : List ℚ) : Store × Nat :=
  (⟨s.arrays ++ [v]⟩, s.arrays.length)

def Store.writeArr (s : Store) (i : Nat) (v : List ℚ) : Store := ⟨s.arrays.set i v⟩

/-- The body of `make_angular_average` as a store program: the two histogram
calls and the bin-center construction allocate fresh arrays, the two masked
assignments write in place to the first two of them, and the final division
allocates the returned array.  Returns the store and the ids of the returned
average array and center array. -/
def make_angular_average_prog (s : Store) (anglesId weightId binEdgesId : Nat) :
    Store × Nat × Nat :=
  let p1 := s.alloc (weightedHist (s.readArr binEdgesId) (s.readArr anglesId)
    (s.readArr weightId))
  let s1 := p1.1
  let histId := p1.2
  let p2 := s1.alloc (countHist (s1.readArr binEdgesId) (s1.readArr anglesId))
  let s2 := p2.1
  let countsId := p2.2
  let p3 := s2.alloc (binCentersAvg (s2.readArr binEdgesId))
  let s3 := p3.1
  let centersId := p3.2
  let s4 := s3.writeArr histId (maskOnes (s3.readArr histId) (s3.readArr countsId))
  let s5 := s4.writeArr countsId (maskOnes (s4.readArr countsId) (s4.readArr countsId))
  let p4 := s5.alloc (List.zipWith (fun a b => a / b) (s5.readArr histId)
    (s5.readArr countsId))
  (p4.1, p4.2, centersId)

theorem readArr_alloc_lt (s : Store) (v : List ℚ) (i : Nat) (h : i < s.arrays.length) :
    (s.alloc v).1.readArr i = s.readArr i := by
  unfold Store.alloc Store.readArr
  rw [List.getD_eq_getElem?_getD, List.getD_eq_getElem?_getD,
    List.getElem?_append_left h]

theorem readArr_alloc_self (s : Store) (v : List ℚ) :
    (s.alloc v).1.readArr (s.alloc v).2 = v := by
  unfold Store.alloc Store.readArr
  rw [List.getD_eq_getElem?_getD, List.getElem?_append_right (Nat.le_refl _)]
  simp

theorem readArr_write_ne (s : Store) (i j : Nat) (v : List ℚ) (h : i ≠ j) :
    (s.writeArr i v).readArr j = s.readArr j := by
  unfold Store.writeArr Store.readArr
  rw [List.getD_eq_getElem?_getD, List.getD_eq_getElem?_getD, List.getElem?_set_ne h]

theorem readArr_write_self (s : Store) (i : Nat) (v : List ℚ) (h : i < s.arrays.length) :
    (s.writeArr i v).readArr i = v := by
  unfold Store.writeArr Store.readArr
  rw [List.getD_eq_getElem?_getD, List.getElem?_set_self h]
  simp

theorem alloc_length (s : Store) (v : List ℚ) :
    (s.alloc v).1.arrays.length = s.arrays.length + 1 := by
  unfold Store.alloc
  simp

theorem write_length (s : Store) (i : Nat) (v : List ℚ) :
    (s.writeArr i v).arrays.length = s.arrays.length := by
  unfold Store.writeArr
  simp

theorem alloc_snd (s : Store) (v : List ℚ) : (s.alloc v).2 = s.arrays.length := rfl

theorem prog_frame_read (s : Store) (anglesId weightId binEdgesId j : Nat)
    (hj : j < s.arrays.length) :
    ((make_angular_average_prog s anglesId weightId binEdgesId).1).readArr j =
      s.readArr j := by
  unfold make_angular_average_prog
  rw [readArr_alloc_lt, readArr_write_ne, readArr_write_ne, readArr_alloc_lt,
    readArr_alloc_lt, readArr_alloc_lt]
  all_goals try simp [alloc_snd, alloc_length, write_length]
  all_goals omega

/-- C9: `make_angular_average` never modifies its input arrays: in the store
model, the arrays at the `angles`, `weight` and `bin_edges` ids (the shared
module-level default edges being one such stored array) are unchanged by the
program, whose in-place masked assignments target only the two freshly
allocated histogram arrays; moreover the returned average and center arrays
agree with the pure `make_angular_average` of the input values. -/
theorem make_angular_average_prog_frame (s : Store) (aId wId bId : Nat)
    (ha : aId < s.arrays.length) (hw : wId < s.arrays.length)
    (hb : bId < s.arrays.length) :
    ((make_angular_average_prog s aId wId bId).1).readArr aId = s.readArr aId ∧
    ((make_angular_average_prog s aId wId bId).1).readArr wId = s.readArr wId ∧
    ((make_angular_average_prog s aId wId bId).1).readArr bId = s.readArr bId ∧
    ((make_angular_average_prog s aId wId bId).1).readArr
        (make_angular_average_prog s aId wId bId).2.1 =
      (make_angular_average (s.readArr aId) (s.readArr wId) (s.readArr bId)).1 ∧
    ((make_angular_average_prog s aId wId bId).1).readArr
        (make_angular_average_prog s aId wId bId).2.2 =
      (make_angular_average (s.readArr aId) (s.readArr wId) (s.readArr bId)).2 := by
  refine ⟨prog_frame_read s aId wId bId aId ha, prog_frame_read s aId wId bId wId hw,
    prog_frame_read s aId wId bId bId hb, ?_, ?_⟩
  · unfold make_angular_average_prog
    rw [readArr_alloc_self, readArr_write_ne, readArr_write_self, readArr_write_self,
      readArr_write_ne, readArr_alloc_lt, readArr_alloc_lt, readArr_alloc_self,
      readArr_alloc_lt, readArr_alloc_self, readArr_alloc_lt, readArr_alloc_lt]
    · rfl
    all_goals try simp [alloc_snd, alloc_length, write_length]
    all_goals omega
  · unfold make_angular_average_prog
    rw [readArr_alloc_lt, readArr_write_ne, readArr_write_ne, readArr_alloc_self,
      readArr_alloc_lt, readArr_alloc_lt]
    · rfl
    all_goals try simp [alloc_snd, alloc_length, write_length]
    all_goals omega

/-- C9 witness: a store holding three arrays (angles `[1/2]`, weight `[7]`,
edges `[0, 1]`), on which the program leaves all three inputs intact. -/
theorem make_angular_average_prog_frame_witness :
    0 < (Store.mk [[1/2], [7], [0, 1]]).arrays.length ∧
    1 < (Store.mk [[1/2], [7], [0, 1]]).arrays.length ∧
    2 < (Store.mk [[1/2], [7], [0, 1]]).arrays.length ∧
    (((make_angular_average_prog (Store.mk [[1/2], [7], [0, 1]]) 0 1 2).1).readArr 0 =
        (Store.mk [[1/2], [7], [0, 1]]).readArr 0 ∧
      ((make_angular_average_prog (Store.mk [[1/2], [7], [0, 1]]) 0 1 2).1).readArr 1 =
        (Store.mk [[1/2], [7], [0, 1]]).readArr 1 ∧
      ((make_angular_average_prog (Store.mk [[1/2], [7], [0, 1]]) 0 1 2).1).readArr 2 =
        (Store.mk [[1/2], [7], [0, 1]]).readArr 2 ∧
      ((make_angular_average_prog (Store.mk [[1/2], [7], [0, 1]]) 0 1 2).1).readArr
          (make_angular_average_prog (Store.mk [[1/2], [7], [0, 1]]) 0 1 2).2.1 =
        (make_angular_average ((Store.mk [[1/2], [7], [0, 1]]).readArr 0)
          ((Store.mk [[1/2], [7], [0, 1]]).readArr 1)
          ((Store.mk [[1/2], [7], [0, 1]]).readArr 2)).1 ∧
      ((make_angular_average_prog (Store.mk [[1/2], [7], [0, 1]]) 0 1 2).1).readArr
          (make_angular_average_prog (Store.mk [[1/2], [7], [0, 1]]) 0 1 2).2.2 =
        (make_angular_average ((Store.mk [[1/2], [7], [0, 1]]).readArr 0)
          ((Store.mk [[1/2], [7], [0, 1]]).readArr 1)
          ((Store.mk [[1/2], [7], [0, 1]]).readArr 2)).2) :=
  ⟨by decide, by decide, by decide,
    make_angular_average_prog_frame (Store.mk [[1/2], [7], [0, 1]]) 0 1 2
      (by decide) (by decide) (by decide)⟩

end PyDune
